import Mathlib

/-!
Verification of the trip-planner logistics core: a shallow embedding of
`app/utils/transport.py`, `app/utils/maps.py`, `app/utils/routing.py` and the
itinerary-assembly part of `app/agents/architect.py`, together with theorems
settling the specified properties.  Machine floats of the source are modelled
as rationals; HTTP services (geocoders, OSRM) are modelled as oracle
parameters; Python exceptions as `Except`.
-/

namespace TripPlanner

/-! ## Transport (`app/utils/transport.py`) -/

/-- Python `int()` applied to a non-negative float: truncation toward zero.
On rationals this is `num.tdiv den`. -/
def pyTrunc (q : ℚ) : ℤ := q.num.tdiv q.den

/-- Python `round()` (round half to even), used by the spec sentence
`minutes = round(distance_km * 12)`.  This is the spec's wording, kept
separate from the source's `int(...)` truncation for comparison. -/
def pyRound (q : ℚ) : ℤ :=
  let f : ℤ := q.num.fdiv q.den
  let r : ℚ := q - (f : ℚ)
  if r < 1/2 then f
  else if 1/2 < r then f + 1
  else if f % 2 = 0 then f else f + 1

inductive TransitMode where
  | walk
  | cab
  | auto
deriving DecidableEq, Repr

/-- The data carried by the instruction string returned by
`get_transit_instruction`: mode, distance in km, minutes, cost (the walk
branch prints "Free", i.e. cost 0). -/
structure TransitInstr where
  mode : TransitMode
  km : ℚ
  minutes : ℤ
  cost : ℤ
deriving DecidableEq, Repr

/-- `get_transit_instruction(distance_meters, daily_budget)`: returns `none`
for the empty-string (no instruction) case, otherwise the structured content
of the returned instruction string. -/
def get_transit_instruction (distance_meters : ℚ) (daily_budget : ℤ) : Option TransitInstr :=
  if distance_meters ≤ 0 then none
  else
    let km := distance_meters / 1000
    if km < 2 then
      some ⟨TransitMode.walk, km, pyTrunc (km * 12), 0⟩
    else
      if daily_budget > 4000 then
        some ⟨TransitMode.cab, km, pyTrunc (km * 3), pyTrunc (km * 25)⟩
      else
        some ⟨TransitMode.auto, km, pyTrunc (km * 4), pyTrunc (km * 15)⟩

/-! ## Maps (`app/utils/maps.py`) -/

/-- Uppercase hexadecimal digit for `n < 16`. -/
def hexUpper (n : ℕ) : Char :=
  if n < 10 then Char.ofNat (48 + n) else Char.ofNat (55 + n)

/-- The characters `urllib.parse` never quotes: ASCII letters, digits and
`_.-~`. -/
def alwaysSafe (c : Char) : Bool :=
  c.isAlpha || c.isDigit || c = '_' || c = '.' || c = '-' || c = '~'

/-- UTF-8 bytes of a character (as naturals). -/
def utf8Bytes (c : Char) : List ℕ :=
  let n := c.toNat
  if n < 128 then [n]
  else if n < 2048 then [192 + n / 64, 128 + n % 64]
  else if n < 65536 then [224 + n / 4096, 128 + n / 64 % 64, 128 + n % 64]
  else [240 + n / 262144, 128 + n / 4096 % 64, 128 + n / 64 % 64, 128 + n % 64]

/-- `%XX` escape of one byte. -/
def pctByte (b : ℕ) : List Char := ['%', hexUpper (b / 16), hexUpper (b % 16)]

/-- Concatenated image of a list under an element-to-list map. -/
def concatMap (f : α → List β) : List α → List β
  | [] => []
  | a :: as => f a ++ concatMap f as

/-- One character under `urllib.parse.quote_plus`: space becomes `+`, safe
characters pass through, everything else is percent-escaped bytewise. -/
def quoteChar (c : Char) : List Char :=
  if c = ' ' then ['+']
  else if alwaysSafe c then [c]
  else concatMap pctByte (utf8Bytes c)

/-- `urllib.parse.quote_plus` with its default empty `safe` set. -/
def quote_plus (s : String) : String :=
  ⟨concatMap quoteChar s.data⟩

/-- Python's `sep.join(parts)`: empty for an empty list, otherwise the
parts interleaved with the separator. -/
def pyJoin (sep : String) : List String → String
  | [] => ""
  | a :: as => as.foldl (fun acc b => acc ++ sep ++ b) a

/-- `generate_google_maps_url(places, city)` from `app/utils/maps.py`. -/
def generate_google_maps_url (places : List String) (city : String) : String :=
  if places.length < 2 then ""
  else
    let origin := quote_plus (places.getD 0 "" ++ " " ++ city)
    let destination := quote_plus (places.getLastD "" ++ " " ++ city)
    let waypoints :=
      if places.length > 2 then
        let middle_places := (places.drop 1).dropLast
        quote_plus (pyJoin "|" (middle_places.map (fun p => p ++ " " ++ city)))
      else ""
    let base_url := "https://www.google.com/maps/dir/?api=1"
    let full_url := base_url ++ "&origin=" ++ origin ++ "&destination=" ++ destination
    if waypoints ≠ "" then full_url ++ "&waypoints=" ++ waypoints else full_url

/-! ## Routing (`app/utils/routing.py`) -/

/-- A resolved coordinate: the dict `{"name": .., "lat": .., "lon": ..}`
built by `fetch_coordinates`. -/
structure Coord where
  name : String
  lat : ℚ
  lon : ℚ
deriving DecidableEq, Repr, Inhabited

/-- A geocoding provider (`geopy` `geocode` call): a query string either
raises (`error`), returns no match (`ok none`), or returns a location
(`ok (some (lat, lon))`). -/
def GeoOracle : Type := String → Except Unit (Option (ℚ × ℚ))

/-- The body of the per-name `try` block of `fetch_coordinates`: strict
Nominatim query `"<name>, <city>"`, then on no-match the fuzzy Photon query
`"<name> <city>"`, then Photon on `"<name>"` alone.  A raised error anywhere
aborts the whole block, exactly as the single `try/except` in the source. -/
def geocodeName (nom pho : GeoOracle) (city name : String) : Except Unit (Option (ℚ × ℚ)) :=
  match nom (name ++ ", " ++ city) with
  | Except.error e => Except.error e
  | Except.ok (some loc) => Except.ok (some loc)
  | Except.ok none =>
    match pho (name ++ " " ++ city) with
    | Except.error e => Except.error e
    | Except.ok (some loc) => Except.ok (some loc)
    | Except.ok none => pho name

/-- One iteration of the `for name in place_names` loop of
`fetch_coordinates`: append the coordinate dict on success, otherwise leave
the results unchanged (both for a caught error and for a triple no-match). -/
def fetchStep (nom pho : GeoOracle) (city : String) (results : List Coord)
    (name : String) : List Coord :=
  match geocodeName nom pho city name with
  | Except.ok (some loc) => results ++ [⟨name, loc.1, loc.2⟩]
  | _ => results

/-- `fetch_coordinates(place_names, city)`: appends a coordinate per name
whose lookup succeeded; a caught error or a triple no-match appends
nothing and the loop moves to the next name. -/
def fetch_coordinates (place_names : List String) (city : String)
    (nom pho : GeoOracle) : List Coord :=
  place_names.foldl (fetchStep nom pho city) []

/-- The JSON payload of the OSRM table service: a status `code` and the
2D `distances` array (entries may be `null`). -/
structure OsrmResponse where
  code : String
  distances : List (List (Option ℚ))

/-- The OSRM table-service HTTP call for a given coordinate list: either
raises or returns a parsed payload. -/
def OsrmOracle : Type := List Coord → Except Unit OsrmResponse

/-- `get_osrm_matrix(coordinates)`: fewer than 2 coordinates, a raised
request error, or a non-"Ok" status code all yield the empty matrix. -/
def get_osrm_matrix (coordinates : List Coord) (osrm : OsrmOracle) :
    List (List (Option ℚ)) :=
  if coordinates.length < 2 then []
  else
    match osrm coordinates with
    | Except.error _ => []
    | Except.ok data => if data.code = "Ok" then data.distances else []

/-- One pass of the inner scan of `solve_tsp`: Python's
`nearest_dist = inf; nearest_index = -1` pair is `none`; index `j` replaces
the best pair when it is unvisited, its distance is known, and that distance
is strictly smaller. -/
def scanUpd (row : List (Option ℚ)) (visited : List Bool)
    (best : Option (ℚ × ℕ)) (j : ℕ) : Option (ℚ × ℕ) :=
  if visited.getD j true then best
  else
    match row.getD j none with
    | none => best
    | some d =>
      match best with
      | none => some (d, j)
      | some (bd, bi) => if d < bd then some (d, j) else some (bd, bi)

/-- The inner `for j in range(n)` scan of `solve_tsp`. -/
def scanNearest (row : List (Option ℚ)) (visited : List Bool) (n : ℕ) :
    Option (ℚ × ℕ) :=
  (List.range n).foldl (scanUpd row visited) none

/-- Index of the first `false` entry: the fallback
`for j in range(n): if not visited[j]: ...; break` of `solve_tsp`
(the visited list always has length `n`). -/
def firstFalse : List Bool → Option ℕ
  | [] => none
  | b :: bs => if b then (firstFalse bs).map (fun j => j + 1) else some 0

/-- The mutable loop state of `solve_tsp`. -/
structure TspState (α : Type) where
  visited : List Bool
  route : List α
  current : ℕ

/-- One iteration of the outer `for _ in range(n - 1)` loop of `solve_tsp`:
take the nearest unvisited neighbour if one has a known distance, otherwise
the first unvisited place; if all are visited, do nothing. -/
def tspStep [Inhabited α] (places : List α) (matrix : List (List (Option ℚ)))
    (s : TspState α) : TspState α :=
  match scanNearest (matrix.getD s.current []) s.visited places.length with
  | some (_, j) => ⟨s.visited.set j true, s.route ++ [places.getD j default], j⟩
  | none =>
    match firstFalse s.visited with
    | some j => ⟨s.visited.set j true, s.route ++ [places.getD j default], j⟩
    | none => s

/-- The outer loop of `solve_tsp`, running `fuel` iterations. -/
def tspLoop [Inhabited α] (places : List α) (matrix : List (List (Option ℚ))) :
    ℕ → TspState α → TspState α
  | 0, s => s
  | k + 1, s => tspLoop places matrix k (tspStep places matrix s)

/-- `solve_tsp(places, distance_matrix, start_index)`: greedy
nearest-neighbour ordering with the unreachable-place fallback. -/
def solve_tsp [Inhabited α] (places : List α)
    (distance_matrix : List (List (Option ℚ))) (start_index : ℕ := 0) : List α :=
  if places.isEmpty || distance_matrix.isEmpty then places
  else
    let s0 : TspState α :=
      ⟨(List.replicate places.length false).set start_index true,
       [places.getD start_index default], start_index⟩
    (tspLoop places distance_matrix (places.length - 1) s0).route

/-- `optimize_daily_route(place_names, city)`: geocode, fetch the matrix,
sort, return names; with the two degraded fallbacks of the source. -/
def optimize_daily_route (place_names : List String) (city : String)
    (nom pho : GeoOracle) (osrm : OsrmOracle) : List String :=
  let coords := fetch_coordinates place_names city nom pho
  if coords.length < 2 then place_names
  else
    let matrix := get_osrm_matrix coords osrm
    if matrix.isEmpty then coords.map (fun c => c.name)
    else (solve_tsp coords matrix 0).map (fun c => c.name)

/-- What `scanNearest row visited n = none` means: every unvisited index in
range has an unknown distance. -/
def scanNoneProp (row : List (Option ℚ)) (visited : List Bool) (n : ℕ) : Prop :=
  ∀ k, k < n → visited.getD k true = false → row.getD k none = none

/-- What `scanNearest row visited n = some (d, j)` means: `j` is an
unvisited in-range index at known distance `d`, minimal among all unvisited
known distances, and the first index attaining that minimum (ties are won by
the earlier index, because the scan replaces only on strict improvement). -/
def scanSomeProp (row : List (Option ℚ)) (visited : List Bool) (n : ℕ)
    (d : ℚ) (j : ℕ) : Prop :=
  j < n ∧ visited.getD j true = false ∧ row.getD j none = some d ∧
    ∀ k, k < n → visited.getD k true = false → ∀ e, row.getD k none = some e →
      d ≤ e ∧ (k < j → d < e)

/-- The places whose flag is set, in input order: the reference value that
`solve_tsp`'s route stays a permutation of. -/
def maskedRoute (places : List α) (visited : List Bool) : List α :=
  (places.zip visited).filterMap (fun pv => if pv.2 then some pv.1 else none)

/-- The loop state of `solve_tsp` after `i` degenerate fallback steps from
start index 0: the first `i + 1` places visited in input order. -/
def fbState (places : List α) (i : ℕ) : TspState α :=
  ⟨List.replicate (i + 1) true ++ List.replicate (places.length - (i + 1)) false,
   places.take (i + 1), i⟩

/-! ## Itinerary assembly (`app/agents/architect.py`, `generate_itinerary`) -/

/-- One activity dict of the externally produced plan; every field may be
absent. -/
structure Activity where
  time : Option String
  end_time : Option String
  activity : Option String
  notes : Option String
deriving DecidableEq, Repr

/-- One day of the externally produced plan. -/
structure PlanDay where
  day : ℤ
  activities : List Activity
deriving DecidableEq, Repr

/-- One row inserted into `itinerary_items`. -/
structure ItineraryItem where
  trip_id : String
  day_number : ℤ
  start_time : String
  end_time : String
  notes : String
deriving DecidableEq, Repr

/-- `re.match(r"^\d{1,2}:\d{2}", s)`: an anchored prefix match; the greedy
one-or-two digit group backtracks, so the two shapes below are exhaustive.
Trailing characters are not examined. -/
def timeReMatch (s : String) : Bool :=
  match s.data with
  | c0 :: c1 :: rest =>
    if c0.isDigit && c1.isDigit then
      match rest with
      | ':' :: m1 :: m2 :: _ => m1.isDigit && m2.isDigit
      | _ => false
    else if c0.isDigit && c1 = ':' then
      match rest with
      | m1 :: m2 :: _ => m1.isDigit && m2.isDigit
      | _ => false
    else false
  | _ => false

/-- Modelled from the spec's words for the C5 consequent: a start time
matching `HH:MM` or `HH:MM:SS` exactly (1- or 2-digit hour, nothing
trailing).  Kept separate from the source's prefix regex `timeReMatch` for
comparison. -/
def specExactTime (s : String) : Bool :=
  match s.data with
  | [h1, ':', m1, m2] => h1.isDigit && m1.isDigit && m2.isDigit
  | [h1, h2, ':', m1, m2] => h1.isDigit && h2.isDigit && m1.isDigit && m2.isDigit
  | [h1, ':', m1, m2, ':', s1, s2] =>
    h1.isDigit && m1.isDigit && m2.isDigit && s1.isDigit && s2.isDigit
  | [h1, h2, ':', m1, m2, ':', s1, s2] =>
    h1.isDigit && h2.isDigit && m1.isDigit && m2.isDigit && s1.isDigit && s2.isDigit
  | _ => false

/-- `raw_time = str(activity.get('time', '09:00:00'))` followed by the
regex check that replaces a non-matching value with `"09:00:00"`. -/
def sanitizeTime (t : Option String) : String :=
  let raw := t.getD "09:00:00"
  if timeReMatch raw then raw else "09:00:00"

/-- One element appended to `items_to_save`. -/
def buildItem (trip_id : String) (dayNum : ℤ) (a : Activity) : ItineraryItem :=
  { trip_id := trip_id
    day_number := dayNum
    start_time := sanitizeTime a.time
    end_time := a.end_time.getD "00:00:00"
    notes := a.activity.getD "Activity" ++ " - " ++ a.notes.getD "" }

/-- The nested `for day in plan: for activity in day['activities']:` loop
building `items_to_save`. -/
def itemsToSave (trip_id : String) (plan : List PlanDay) : List ItineraryItem :=
  plan.foldl (fun acc d => acc ++ d.activities.map (buildItem trip_id d.day)) []

/-- A persistence-store operation issued by `generate_itinerary`. -/
inductive DbOp where
  | deleteItems (trip_id : String)
  | insertItems (rows : List ItineraryItem)
deriving DecidableEq, Repr

/-- The value returned by `generate_itinerary` after the planner call. -/
inductive GenResult where
  | error (msg : String)
  | success (plan : List PlanDay) (map_url : String)
deriving DecidableEq, Repr

/-- Steps 3b-4 of `generate_itinerary`: parse the planner output, and on
success delete the existing rows, assemble the new rows, insert them when
non-empty, and build the maps link.  Returns the persistence operations in
program order together with the function's return value. -/
def persistItinerary (trip_id : String) (parsed : Except Unit (List PlanDay))
    (ordered_names : List String) (city : String) : List DbOp × GenResult :=
  match parsed with
  | Except.error _ => ([], GenResult.error "Failed to parse AI output into JSON.")
  | Except.ok plan =>
    let items := itemsToSave trip_id plan
    let ops :=
      if items.isEmpty then [DbOp.deleteItems trip_id]
      else [DbOp.deleteItems trip_id, DbOp.insertItems items]
    (ops, GenResult.success plan (generate_google_maps_url ordered_names city))

/-! ## Lemmas about the nearest-neighbour scan -/

theorem scanNearest_zero (row : List (Option ℚ)) (visited : List Bool) :
    scanNearest row visited 0 = none := rfl

theorem scanNearest_succ (row : List (Option ℚ)) (visited : List Bool) (n : ℕ) :
    scanNearest row visited (n + 1) = scanUpd row visited (scanNearest row visited n) n := by
  simp [scanNearest, List.range_succ]

theorem scanNearest_spec (row : List (Option ℚ)) (visited : List Bool) :
    ∀ n, (scanNearest row visited n = none → scanNoneProp row visited n) ∧
      (∀ d j, scanNearest row visited n = some (d, j) → scanSomeProp row visited n d j) := by
  intro n
  induction n with
  | zero =>
    refine ⟨fun _ k hk => absurd hk (Nat.not_lt_zero k), fun d j h => ?_⟩
    rw [scanNearest_zero] at h
    cases h
  | succ n ih =>
    rw [scanNearest_succ row visited n]
    cases hprev : scanNearest row visited n with
    | none =>
      have hn := ih.1 hprev
      by_cases hv : visited.getD n true = true
      · have hres : scanUpd row visited none n = none := by
          unfold scanUpd; rw [hv]; rfl
        rw [hres]
        constructor
        · intro _ k hk hkv
          rcases Nat.lt_succ_iff_lt_or_eq.mp hk with hk2 | rfl
          · exact hn k hk2 hkv
          · rw [hv] at hkv; cases hkv
        · intro d j h; cases h
      · have hv2 : visited.getD n true = false := by
          cases hb : visited.getD n true
          · rfl
          · exact absurd hb hv
        cases hrow : row.getD n none with
        | none =>
          have hres : scanUpd row visited none n = none := by
            unfold scanUpd; rw [hv2, hrow]; rfl
          rw [hres]
          constructor
          · intro _ k hk hkv
            rcases Nat.lt_succ_iff_lt_or_eq.mp hk with hk2 | rfl
            · exact hn k hk2 hkv
            · exact hrow
          · intro d j h; cases h
        | some d0 =>
          have hres : scanUpd row visited none n = some (d0, n) := by
            unfold scanUpd; rw [hv2, hrow]; rfl
          rw [hres]
          constructor
          · intro h; cases h
          · intro d j h
            have hd : d0 = d ∧ n = j := by
              have := Option.some.inj h
              exact ⟨congrArg Prod.fst this, congrArg Prod.snd this⟩
            obtain ⟨rfl, rfl⟩ := hd
            refine ⟨Nat.lt_succ_self n, hv2, hrow, ?_⟩
            intro k hk hkv e hke
            rcases Nat.lt_succ_iff_lt_or_eq.mp hk with hk2 | rfl
            · rw [hn k hk2 hkv] at hke; cases hke
            · rw [hrow] at hke
              have he := Option.some.inj hke
              subst he
              exact ⟨le_refl d0, fun hlt => absurd hlt (lt_irrefl k)⟩
    | some bp =>
      obtain ⟨bd, bi⟩ := bp
      have hs := ih.2 bd bi hprev
      obtain ⟨hbi, hbv, hbrow, hbmin⟩ := hs
      by_cases hv : visited.getD n true = true
      · have hres : scanUpd row visited (some (bd, bi)) n = some (bd, bi) := by
          unfold scanUpd; rw [hv]; rfl
        rw [hres]
        constructor
        · intro h; cases h
        · intro d j h
          have hd : bd = d ∧ bi = j := by
            have := Option.some.inj h
            exact ⟨congrArg Prod.fst this, congrArg Prod.snd this⟩
          obtain ⟨rfl, rfl⟩ := hd
          refine ⟨Nat.lt_succ_of_lt hbi, hbv, hbrow, ?_⟩
          intro k hk hkv e hke
          rcases Nat.lt_succ_iff_lt_or_eq.mp hk with hk2 | rfl
          · exact hbmin k hk2 hkv e hke
          · rw [hv] at hkv; cases hkv
      · have hv2 : visited.getD n true = false := by
          cases hb : visited.getD n true
          · rfl
          · exact absurd hb hv
        cases hrow : row.getD n none with
        | none =>
          have hres : scanUpd row visited (some (bd, bi)) n = some (bd, bi) := by
            unfold scanUpd; rw [hv2, hrow]; rfl
          rw [hres]
          constructor
          · intro h; cases h
          · intro d j h
            have hd : bd = d ∧ bi = j := by
              have := Option.some.inj h
              exact ⟨congrArg Prod.fst this, congrArg Prod.snd this⟩
            obtain ⟨rfl, rfl⟩ := hd
            refine ⟨Nat.lt_succ_of_lt hbi, hbv, hbrow, ?_⟩
            intro k hk hkv e hke
            rcases Nat.lt_succ_iff_lt_or_eq.mp hk with hk2 | rfl
            · exact hbmin k hk2 hkv e hke
            · rw [hrow] at hke; cases hke
        | some d0 =>
          by_cases hlt : d0 < bd
          · have hres : scanUpd row visited (some (bd, bi)) n = some (d0, n) := by
              unfold scanUpd; rw [hv2, hrow]
              show (if d0 < bd then some (d0, n) else some (bd, bi)) = some (d0, n)
              exact if_pos hlt
            rw [hres]
            constructor
            · intro h; cases h
            · intro d j h
              have hd : d0 = d ∧ n = j := by
                have := Option.some.inj h
                exact ⟨congrArg Prod.fst this, congrArg Prod.snd this⟩
              obtain ⟨rfl, rfl⟩ := hd
              refine ⟨Nat.lt_succ_self n, hv2, hrow, ?_⟩
              intro k hk hkv e hke
              rcases Nat.lt_succ_iff_lt_or_eq.mp hk with hk2 | rfl
              · have hb := hbmin k hk2 hkv e hke
                exact ⟨le_of_lt (lt_of_lt_of_le hlt hb.1),
                  fun _ => lt_of_lt_of_le hlt hb.1⟩
              · rw [hrow] at hke
                have he := Option.some.inj hke
                subst he
                exact ⟨le_refl d0, fun hk2 => absurd hk2 (lt_irrefl k)⟩
          · have hres : scanUpd row visited (some (bd, bi)) n = some (bd, bi) := by
              unfold scanUpd; rw [hv2, hrow]
              show (if d0 < bd then some (d0, n) else some (bd, bi)) = some (bd, bi)
              exact if_neg hlt
            rw [hres]
            constructor
            · intro h; cases h
            · intro d j h
              have hd : bd = d ∧ bi = j := by
                have := Option.some.inj h
                exact ⟨congrArg Prod.fst this, congrArg Prod.snd this⟩
              obtain ⟨rfl, rfl⟩ := hd
              refine ⟨Nat.lt_succ_of_lt hbi, hbv, hbrow, ?_⟩
              intro k hk hkv e hke
              rcases Nat.lt_succ_iff_lt_or_eq.mp hk with hk2 | rfl
              · exact hbmin k hk2 hkv e hke
              · rw [hrow] at hke
                have he := Option.some.inj hke
                subst he
                exact ⟨le_of_not_lt hlt, fun hk2 => absurd (Nat.lt_of_lt_of_le hk2 (Nat.le_of_lt_succ (Nat.lt_succ_of_lt hbi))) (lt_irrefl k)⟩

theorem firstFalse_some :
    ∀ (v : List Bool) (j : ℕ), firstFalse v = some j →
      j < v.length ∧ v.getD j true = false ∧ ∀ k, k < j → v.getD k true = true := by
  intro v
  induction v with
  | nil => intro j h; cases h
  | cons b bs ih =>
    intro j h
    cases b with
    | false =>
      have hj : j = 0 := (Option.some.inj h).symm
      subst hj
      exact ⟨Nat.succ_pos _, rfl, fun k hk => absurd hk (Nat.not_lt_zero k)⟩
    | true =>
      rw [show firstFalse (true :: bs) = (firstFalse bs).map (fun j => j + 1) from rfl] at h
      cases hfb : firstFalse bs with
      | none => rw [hfb] at h; cases h
      | some j0 =>
        rw [hfb] at h
        have hj : j0 + 1 = j := Option.some.inj h
        subst hj
        obtain ⟨h1, h2, h3⟩ := ih j0 hfb
        refine ⟨Nat.succ_lt_succ h1, h2, ?_⟩
        intro k hk
        cases k with
        | zero => rfl
        | succ k2 => exact h3 k2 (Nat.lt_of_succ_lt_succ hk)

theorem firstFalse_none :
    ∀ v : List Bool, firstFalse v = none → ∀ k, k < v.length → v.getD k true = true := by
  intro v
  induction v with
  | nil => intro _ k hk; exact absurd hk (Nat.not_lt_zero k)
  | cons b bs ih =>
    intro h k hk
    cases b with
    | false => cases h
    | true =>
      rw [show firstFalse (true :: bs) = (firstFalse bs).map (fun j => j + 1) from rfl] at h
      cases hfb : firstFalse bs with
      | none =>
        cases k with
        | zero => rfl
        | succ k2 => exact ih hfb k2 (Nat.lt_of_succ_lt_succ hk)
      | some j0 => rw [hfb] at h; cases h

theorem firstFalse_none_count :
    ∀ v : List Bool, firstFalse v = none → v.count true = v.length := by
  intro v
  induction v with
  | nil => intro _; rfl
  | cons b bs ih =>
    intro h
    cases b with
    | false => cases h
    | true =>
      rw [show firstFalse (true :: bs) = (firstFalse bs).map (fun j => j + 1) from rfl] at h
      cases hfb : firstFalse bs with
      | none => simp [List.count_cons, ih hfb]
      | some j0 => rw [hfb] at h; cases h

/-! ## Permutation invariant of `solve_tsp` -/

theorem maskedRoute_cons (p : α) (ps : List α) (v : Bool) (vs : List Bool) :
    maskedRoute (p :: ps) (v :: vs) =
      if v then p :: maskedRoute ps vs else maskedRoute ps vs := by
  cases v <;> simp [maskedRoute]

theorem maskedRoute_le :
    ∀ (places : List α) (visited : List Bool),
      (maskedRoute places visited).length ≤ places.length := by
  intro places
  induction places with
  | nil => intro visited; simp [maskedRoute]
  | cons p ps ih =>
    intro visited
    cases visited with
    | nil => simp [maskedRoute]
    | cons v vs =>
      rw [maskedRoute_cons]
      cases v with
      | false => exact le_trans (ih vs) (Nat.le_succ _)
      | true => simpa using Nat.succ_le_succ (ih vs)

theorem maskedRoute_all_true :
    ∀ (places : List α) (visited : List Bool), visited.length = places.length →
      (∀ k, k < visited.length → visited.getD k true = true) →
      maskedRoute places visited = places := by
  intro places
  induction places with
  | nil => intro visited _ _; simp [maskedRoute]
  | cons p ps ih =>
    intro visited hlen hall
    cases visited with
    | nil => cases hlen
    | cons v vs =>
      have hv : v = true := hall 0 (Nat.succ_pos _)
      subst hv
      rw [maskedRoute_cons, if_pos rfl]
      have := ih vs (Nat.succ.inj hlen)
        (fun k hk => hall (k + 1) (Nat.succ_lt_succ hk))
      rw [this]

theorem maskedRoute_full_flags :
    ∀ (places : List α) (visited : List Bool), visited.length = places.length →
      (maskedRoute places visited).length = places.length →
      ∀ k, k < visited.length → visited.getD k true = true := by
  intro places
  induction places with
  | nil =>
    intro visited hlen _ k hk
    rw [hlen] at hk
    exact absurd hk (Nat.not_lt_zero k)
  | cons p ps ih =>
    intro visited hlen hfull k hk
    cases visited with
    | nil => cases hlen
    | cons v vs =>
      cases v with
      | false =>
        exfalso
        rw [maskedRoute_cons, if_neg (by simp)] at hfull
        simp only [List.length_cons] at hfull
        have := maskedRoute_le ps vs
        omega
      | true =>
        rw [maskedRoute_cons, if_pos rfl] at hfull
        cases k with
        | zero => rfl
        | succ k2 =>
          exact ih vs (Nat.succ.inj hlen) (Nat.succ.inj hfull) k2
            (Nat.lt_of_succ_lt_succ hk)

theorem getD_replicate (a d : α) :
    ∀ (n k : ℕ), k < n → (List.replicate n a).getD k d = a := by
  intro n
  induction n with
  | zero => intro k hk; exact absurd hk (Nat.not_lt_zero k)
  | succ n2 ih =>
    intro k hk
    cases k with
    | zero => rfl
    | succ k2 => exact ih k2 (Nat.lt_of_succ_lt_succ hk)

theorem maskedRoute_replicate_false :
    ∀ (places : List α), maskedRoute places (List.replicate places.length false) = [] := by
  intro places
  induction places with
  | nil => rfl
  | cons p ps ih => simpa [maskedRoute_cons] using ih

theorem maskedRoute_set_perm [Inhabited α] :
    ∀ (places : List α) (visited : List Bool) (j : ℕ),
      visited.length = places.length → j < places.length →
      visited.getD j true = false →
      (maskedRoute places (visited.set j true)).Perm
        (places.getD j default :: maskedRoute places visited) := by
  intro places
  induction places with
  | nil => intro visited j _ hj; exact absurd hj (Nat.not_lt_zero j)
  | cons p ps ih =>
    intro visited j hlen hj hjv
    cases visited with
    | nil => cases hlen
    | cons v vs =>
      cases j with
      | zero =>
        have hv : v = false := hjv
        subst hv
        rw [show (false :: vs).set 0 true = true :: vs from rfl,
          maskedRoute_cons, maskedRoute_cons, if_pos rfl, if_neg (by simp)]
        exact List.Perm.refl _
      | succ j2 =>
        have hrec := ih vs j2 (Nat.succ.inj hlen) (Nat.lt_of_succ_lt_succ hj) hjv
        rw [show (v :: vs).set (j2 + 1) true = v :: vs.set j2 true from rfl,
          maskedRoute_cons, maskedRoute_cons]
        cases v with
        | false =>
          rw [if_neg (by simp), if_neg (by simp)]
          exact hrec
        | true =>
          rw [if_pos rfl, if_pos rfl]
          exact List.Perm.trans (List.Perm.cons p hrec)
            (List.Perm.swap (ps.getD j2 default) p (maskedRoute ps vs))

theorem tspStep_fallback [Inhabited α] (places : List α)
    (matrix : List (List (Option ℚ))) (s : TspState α) (j : ℕ)
    (hscan : scanNearest (matrix.getD s.current []) s.visited places.length = none)
    (hff : firstFalse s.visited = some j) :
    tspStep places matrix s =
      ⟨s.visited.set j true, s.route ++ [places.getD j default], j⟩ := by
  unfold tspStep
  rw [hscan, hff]

theorem tspStep_spec [Inhabited α] (places : List α)
    (matrix : List (List (Option ℚ))) (s : TspState α)
    (hlen : s.visited.length = places.length)
    (hperm : s.route.Perm (maskedRoute places s.visited)) :
    (tspStep places matrix s).visited.length = places.length ∧
    (tspStep places matrix s).route.Perm
      (maskedRoute places (tspStep places matrix s).visited) ∧
    (tspStep places matrix s).route.length =
      min places.length (s.route.length + 1) := by
  have hml := hperm.length_eq
  have hle := maskedRoute_le places s.visited
  cases hscan : scanNearest (matrix.getD s.current []) s.visited places.length with
  | some bp =>
    obtain ⟨d, j⟩ := bp
    obtain ⟨hj, hjv, _, _⟩ := (scanNearest_spec _ s.visited places.length).2 d j hscan
    have hstep : tspStep places matrix s =
        ⟨s.visited.set j true, s.route ++ [places.getD j default], j⟩ := by
      unfold tspStep; rw [hscan]
    rw [hstep]
    have hset := maskedRoute_set_perm places s.visited j hlen hj hjv
    have hlt : (maskedRoute places s.visited).length < places.length := by
      rcases Nat.lt_or_ge (maskedRoute places s.visited).length places.length with h | h
      · exact h
      · exfalso
        have hfullLen : (maskedRoute places s.visited).length = places.length :=
          le_antisymm hle h
        have := maskedRoute_full_flags places s.visited hlen hfullLen j (by omega)
        rw [this] at hjv; cases hjv
    refine ⟨by simpa using hlen, ?_, ?_⟩
    · exact List.Perm.trans (List.perm_append_singleton _ _)
        (List.Perm.trans (List.Perm.cons _ hperm) hset.symm)
    · simp only [List.length_append, List.length_singleton]
      omega
  | none =>
    cases hff : firstFalse s.visited with
    | some j =>
      obtain ⟨hj, hjv, _⟩ := firstFalse_some s.visited j hff
      rw [hlen] at hj
      have hstep := tspStep_fallback places matrix s j hscan hff
      rw [hstep]
      have hset := maskedRoute_set_perm places s.visited j hlen hj hjv
      have hlt : (maskedRoute places s.visited).length < places.length := by
        rcases Nat.lt_or_ge (maskedRoute places s.visited).length places.length with h | h
        · exact h
        · exfalso
          have hfullLen : (maskedRoute places s.visited).length = places.length :=
            le_antisymm hle h
          have := maskedRoute_full_flags places s.visited hlen hfullLen j (by omega)
          rw [this] at hjv; cases hjv
      refine ⟨by simpa using hlen, ?_, ?_⟩
      · exact List.Perm.trans (List.perm_append_singleton _ _)
          (List.Perm.trans (List.Perm.cons _ hperm) hset.symm)
      · simp only [List.length_append, List.length_singleton]
        omega
    | none =>
      have hall := firstFalse_none s.visited hff
      have hstep : tspStep places matrix s = s := by
        unfold tspStep; rw [hscan, hff]
      rw [hstep]
      have hmask := maskedRoute_all_true places s.visited hlen hall
      refine ⟨hlen, hperm, ?_⟩
      rw [hml, hmask]
      omega

theorem tspLoop_spec [Inhabited α] (places : List α)
    (matrix : List (List (Option ℚ))) :
    ∀ (fuel : ℕ) (s : TspState α), s.visited.length = places.length →
      s.route.Perm (maskedRoute places s.visited) →
      (tspLoop places matrix fuel s).visited.length = places.length ∧
      (tspLoop places matrix fuel s).route.Perm
        (maskedRoute places (tspLoop places matrix fuel s).visited) ∧
      (tspLoop places matrix fuel s).route.length =
        min places.length (s.route.length + fuel) := by
  intro fuel
  induction fuel with
  | zero =>
    intro s hlen hperm
    have hle := maskedRoute_le places s.visited
    have hml := hperm.length_eq
    refine ⟨hlen, hperm, ?_⟩
    show s.route.length = min places.length (s.route.length + 0)
    rw [Nat.add_zero]
    exact (Nat.min_eq_right (by omega)).symm
  | succ f ih =>
    intro s hlen hperm
    obtain ⟨h1, h2, h3⟩ := tspStep_spec places matrix s hlen hperm
    obtain ⟨g1, g2, g3⟩ := ih (tspStep places matrix s) h1 h2
    refine ⟨g1, g2, ?_⟩
    show (tspLoop places matrix f (tspStep places matrix s)).route.length = _
    rw [g3, h3]
    omega

/-- C1: for every non-empty place list, every distance matrix (empty, or
n-by-n possibly containing unknown entries) and every valid start index,
`solve_tsp` returns a permutation of its input: same elements, same length,
each input place exactly once. -/
theorem solve_tsp_permutation [Inhabited α] (places : List α)
    (matrix : List (List (Option ℚ))) (start_index : ℕ)
    (hne : places ≠ [])
    (hstart : start_index < places.length)
    (hmat : matrix = [] ∨ (matrix.length = places.length ∧
      ∀ row ∈ matrix, row.length = places.length)) :
    (solve_tsp places matrix start_index).Perm places := by
  unfold solve_tsp
  cases hm : matrix.isEmpty with
  | true => simp
  | false =>
    have hpe : places.isEmpty = false := by
      cases places with
      | nil => exact absurd rfl hne
      | cons p ps => rfl
    rw [hpe]
    simp only [Bool.or_self, Bool.false_eq_true, if_false]
    have hlen0 : ((List.replicate places.length false).set start_index true).length =
        places.length := by simp
    have hv0 : (List.replicate places.length false).getD start_index true = false :=
      getD_replicate false true places.length start_index hstart
    have hperm0 : [places.getD start_index default].Perm
        (maskedRoute places ((List.replicate places.length false).set start_index true)) := by
      have hset := maskedRoute_set_perm places (List.replicate places.length false)
        start_index (by simp) hstart hv0
      rw [maskedRoute_replicate_false places] at hset
      exact hset.symm
    obtain ⟨g1, g2, g3⟩ := tspLoop_spec places matrix (places.length - 1)
      ⟨(List.replicate places.length false).set start_index true,
       [places.getD start_index default], start_index⟩ hlen0 hperm0
    have hn1 : 1 ≤ places.length := by
      cases places with
      | nil => exact absurd rfl hne
      | cons p ps => exact Nat.succ_le_succ (Nat.zero_le _)
    have hfullLen : (tspLoop places matrix (places.length - 1)
        ⟨(List.replicate places.length false).set start_index true,
         [places.getD start_index default], start_index⟩).route.length = places.length := by
      rw [g3]
      simp only [List.length_singleton]
      omega
    have hmaskFull := g2.length_eq
    rw [hfullLen] at hmaskFull
    have hflags := maskedRoute_full_flags places _ g1 hmaskFull.symm
    have hmask := maskedRoute_all_true places _ g1 hflags
    rw [hmask] at g2
    exact g2

/-- Closed witness for `solve_tsp_permutation`: a 3-by-3 matrix with unknown
entries, start index 1. -/
theorem solve_tsp_permutation_witness :
    (["P", "Q", "R"] : List String) ≠ [] ∧ 1 < (["P", "Q", "R"] : List String).length ∧
    (solve_tsp ["P", "Q", "R"]
      [[some 0, none, some 7], [none, some 0, some 1], [some 7, some 1, some 0]]
      1).Perm ["P", "Q", "R"] :=
  ⟨by decide, by decide,
    solve_tsp_permutation ["P", "Q", "R"]
      [[some 0, none, some 7], [none, some 0, some 1], [some 7, some 1, some 0]]
      1 (by decide) (by decide) (Or.inr (by decide))⟩

/-! ## The degenerate all-unknown fallback of `solve_tsp` -/

theorem getD_mem_or_default (l : List α) (d : α) :
    ∀ i : ℕ, l.getD i d ∈ l ∨ l.getD i d = d := by
  induction l with
  | nil => intro i; right; cases i <;> rfl
  | cons a as ih =>
    intro i
    cases i with
    | zero => left; exact List.mem_cons_self a as
    | succ i2 =>
      rcases ih i2 with h | h
      · left; exact List.mem_cons_of_mem a h
      · right; exact h

theorem allNone_entry (matrix : List (List (Option ℚ)))
    (h : ∀ row ∈ matrix, ∀ e ∈ row, e = none) (i k : ℕ) :
    (matrix.getD i []).getD k none = none := by
  rcases getD_mem_or_default matrix [] i with hrow | hrow
  · rcases getD_mem_or_default (matrix.getD i []) none k with he | he
    · exact h _ hrow _ he
    · exact he
  · rw [hrow]
    cases k <;> rfl

theorem scanNearest_allNone (row : List (Option ℚ)) (visited : List Bool)
    (hrow : ∀ k, row.getD k none = none) :
    ∀ n, scanNearest row visited n = none := by
  intro n
  induction n with
  | zero => rfl
  | succ n2 ih =>
    rw [scanNearest_succ, ih]
    unfold scanUpd
    rw [hrow n2]
    split <;> rfl

theorem firstFalse_trueRep :
    ∀ (a : ℕ) (l : List Bool),
      firstFalse (List.replicate a true ++ l) =
        (firstFalse l).map (fun j => j + a) := by
  intro a
  induction a with
  | zero => intro l; cases hf : firstFalse l <;> simp [hf]
  | succ a2 ih =>
    intro l
    rw [List.replicate_succ, List.cons_append,
      show firstFalse (true :: (List.replicate a2 true ++ l)) =
        (firstFalse (List.replicate a2 true ++ l)).map (fun j => j + 1) from rfl,
      ih l]
    cases hf : firstFalse l with
    | none => rfl
    | some j0 =>
      show some (j0 + a2 + 1) = some (j0 + (a2 + 1))
      rw [Nat.add_assoc]

theorem replicate_false_firstFalse (m : ℕ) :
    firstFalse (List.replicate (m + 1) false) = some 0 := by
  rw [List.replicate_succ]
  rfl

theorem replicate_set_true :
    ∀ (a m : ℕ),
      (List.replicate a true ++ List.replicate (m + 1) false).set a true =
        List.replicate (a + 1) true ++ List.replicate m false := by
  intro a
  induction a with
  | zero => intro m; rfl
  | succ a2 ih =>
    intro m
    show true :: ((List.replicate a2 true ++ List.replicate (m + 1) false).set a2 true) =
      true :: (List.replicate (a2 + 1) true ++ List.replicate m false)
    rw [ih m]

theorem take_append_getD [Inhabited α] :
    ∀ (l : List α) (i : ℕ), i < l.length →
      l.take i ++ [l.getD i default] = l.take (i + 1) := by
  intro l
  induction l with
  | nil => intro i hi; exact absurd hi (Nat.not_lt_zero i)
  | cons a as ih =>
    intro i hi
    cases i with
    | zero => rfl
    | succ i2 =>
      show a :: (as.take i2 ++ [as.getD i2 default]) = a :: as.take (i2 + 1)
      rw [ih i2 (Nat.lt_of_succ_lt_succ hi)]

theorem fbStep_eq [Inhabited α] (places : List α)
    (matrix : List (List (Option ℚ)))
    (hmat : ∀ row ∈ matrix, ∀ e ∈ row, e = none) (i : ℕ)
    (hi : i + 1 < places.length) :
    tspStep places matrix (fbState places i) = fbState places (i + 1) := by
  have hscan := scanNearest_allNone (matrix.getD (fbState places i).current [])
    (fbState places i).visited (fun k => allNone_entry matrix hmat _ k) places.length
  obtain ⟨m, hm⟩ : ∃ m, places.length - (i + 1) = m + 1 :=
    ⟨places.length - (i + 2), by omega⟩
  have hff : firstFalse (fbState places i).visited = some (i + 1) := by
    show firstFalse (List.replicate (i + 1) true ++
      List.replicate (places.length - (i + 1)) false) = some (i + 1)
    rw [hm, firstFalse_trueRep (i + 1) (List.replicate (m + 1) false),
      replicate_false_firstFalse m]
    show some (0 + (i + 1)) = some (i + 1)
    rw [Nat.zero_add]
  rw [tspStep_fallback places matrix (fbState places i) (i + 1) hscan hff]
  show (⟨(List.replicate (i + 1) true ++
      List.replicate (places.length - (i + 1)) false).set (i + 1) true,
    places.take (i + 1) ++ [places.getD (i + 1) default], i + 1⟩ : TspState α) =
    fbState places (i + 1)
  rw [hm, replicate_set_true (i + 1) m, take_append_getD places (i + 1) hi]
  show (⟨List.replicate (i + 1 + 1) true ++ List.replicate m false,
      places.take (i + 1 + 1), i + 1⟩ : TspState α) =
    ⟨List.replicate (i + 1 + 1) true ++
       List.replicate (places.length - (i + 1 + 1)) false,
     places.take (i + 1 + 1), i + 1⟩
  rw [show places.length - (i + 1 + 1) = m from by omega]

theorem fbLoop_eq [Inhabited α] (places : List α)
    (matrix : List (List (Option ℚ)))
    (hmat : ∀ row ∈ matrix, ∀ e ∈ row, e = none) :
    ∀ (fuel i : ℕ), i + 1 + fuel = places.length →
      tspLoop places matrix fuel (fbState places i) = fbState places (i + fuel) := by
  intro fuel
  induction fuel with
  | zero => intro i _; rfl
  | succ f ih =>
    intro i h
    show tspLoop places matrix f (tspStep places matrix (fbState places i)) = _
    rw [fbStep_eq places matrix hmat i (by omega), ih (i + 1) (by omega)]
    congr 1
    omega

/-- C7: `solve_tsp` anchors at the start index and at every step moves to
the unvisited node with the smallest known distance from the current node
(first index wins ties); when no unvisited node has a known distance it
selects the first unvisited node in original input order instead of erroring
or looping, so with an all-unknown matrix it terminates and visits every
node in input order. -/
theorem solve_tsp_greedy_selection :
    (∀ (row : List (Option ℚ)) (visited : List Bool) (n : ℕ) (d : ℚ) (j : ℕ),
      scanNearest row visited n = some (d, j) → scanSomeProp row visited n d j) ∧
    (∀ (row : List (Option ℚ)) (visited : List Bool) (n : ℕ),
      scanNearest row visited n = none → scanNoneProp row visited n) ∧
    (∀ (v : List Bool) (j : ℕ), firstFalse v = some j →
      j < v.length ∧ v.getD j true = false ∧ ∀ k, k < j → v.getD k true = true) ∧
    (∀ (α : Type) [inst : Inhabited α] (places : List α)
      (matrix : List (List (Option ℚ))) (s : TspState α) (j : ℕ),
      scanNearest (matrix.getD s.current []) s.visited places.length = none →
      firstFalse s.visited = some j →
      tspStep places matrix s =
        ⟨s.visited.set j true, s.route ++ [places.getD j default], j⟩) ∧
    (∀ (α : Type) [inst : Inhabited α] (places : List α)
      (matrix : List (List (Option ℚ))),
      matrix ≠ [] → places ≠ [] → (∀ row ∈ matrix, ∀ e ∈ row, e = none) →
      solve_tsp places matrix 0 = places) := by
  refine ⟨fun row visited n d j h => (scanNearest_spec row visited n).2 d j h,
    fun row visited n h => (scanNearest_spec row visited n).1 h,
    firstFalse_some,
    fun α inst places matrix s j hscan hff =>
      tspStep_fallback places matrix s j hscan hff,
    ?_⟩
  intro α inst places matrix hm hp hall
  unfold solve_tsp
  have hpe : places.isEmpty = false := by
    cases places with
    | nil => exact absurd rfl hp
    | cons p ps => rfl
  have hme : matrix.isEmpty = false := by
    cases matrix with
    | nil => exact absurd rfl hm
    | cons r rs => rfl
  rw [hpe, hme]
  simp only [Bool.or_self, Bool.false_eq_true, if_false]
  cases places with
  | nil => exact absurd rfl hp
  | cons p ps =>
    have hn : (p :: ps).length = ps.length + 1 := rfl
    show (tspLoop (p :: ps) matrix ((p :: ps).length - 1) (fbState (p :: ps) 0)).route =
      p :: ps
    rw [fbLoop_eq (p :: ps) matrix hall ((p :: ps).length - 1) 0
      (by rw [hn]; omega)]
    show (p :: ps).take (0 + ((p :: ps).length - 1) + 1) = p :: ps
    rw [show 0 + ((p :: ps).length - 1) + 1 = (p :: ps).length from by rw [hn]; omega]
    exact List.take_length _

/-- Closed witness for `solve_tsp_greedy_selection`: its degenerate-matrix
conjunct applied to a concrete 3-place, all-unknown matrix. -/
theorem solve_tsp_greedy_selection_witness :
    solve_tsp ["x", "y", "z"]
      [[none, none, none], [none, none, none], [none, none, none]] 0 =
      ["x", "y", "z"] :=
  solve_tsp_greedy_selection.2.2.2.2 String ["x", "y", "z"]
    [[none, none, none], [none, none, none], [none, none, none]]
    (by decide) (by decide) (by decide)

/-! ## Transit rule table (C4) -/

theorem pyTrunc_eq_floor (q : ℚ) (h : 0 ≤ q) : pyTrunc q = ⌊q⌋ := by
  unfold pyTrunc
  rw [Int.tdiv_eq_ediv (Rat.num_nonneg.mpr h) (Int.natCast_nonneg q.den)]
  exact Rat.floor_def.symm

theorem pyRound_floorForm (q : ℚ) :
    pyRound q =
      if q - ⌊q⌋ < 1 / 2 then ⌊q⌋
      else if 1 / 2 < q - ⌊q⌋ then ⌊q⌋ + 1
      else if ⌊q⌋ % 2 = 0 then ⌊q⌋ else ⌊q⌋ + 1 := by
  unfold pyRound
  rw [Int.fdiv_eq_ediv q.num (Int.natCast_nonneg q.den), ← Rat.floor_def]

theorem floor_nine_fifths : ⌊(9 / 5 : ℚ)⌋ = 1 := by
  rw [show (9 / 5 : ℚ) = ((9 : ℤ) : ℚ) / ((5 : ℕ) : ℚ) from by norm_num,
    Rat.floor_intCast_div_natCast]
  decide

/-- C4 counterexample: at 150 m the code computes `int(1.8) = 1` walking
minutes, while the claim's `round(distance_km * 12)` is 2; the claim as
stated is therefore false at distance 150 m. -/
theorem transit_round_counterexample :
    get_transit_instruction 150 1000 =
      some ⟨TransitMode.walk, (150 : ℚ) / 1000, 1, 0⟩ ∧
    pyRound ((150 : ℚ) / 1000 * 12) = 2 ∧ (1 : ℤ) ≠ 2 := by
  have hq : ((150 : ℚ) / 1000 * 12) = 9 / 5 := by norm_num
  refine ⟨?_, ?_, by decide⟩
  · unfold get_transit_instruction
    rw [if_neg (by norm_num : ¬ (150 : ℚ) ≤ 0)]
    show (if (150 : ℚ) / 1000 < 2 then _ else _) = _
    rw [if_pos (by norm_num : (150 : ℚ) / 1000 < 2)]
    have hm : pyTrunc ((150 : ℚ) / 1000 * 12) = 1 := by
      rw [pyTrunc_eq_floor _ (by norm_num), hq, floor_nine_fifths]
    rw [hm]
  · rw [hq, pyRound_floorForm, floor_nine_fifths]
    norm_num

/-- C4 (amended): the fixed rule table of `get_transit_instruction`, with
minutes and cost computed by Python `int()` truncation rather than
`round()`: no instruction for non-positive distances; walking with
`int(km * 12)` minutes and cost 0 below 2 km; above, a cab with
`int(km * 25)` cost and `int(km * 3)` minutes when the daily budget exceeds
4000, otherwise an auto-rickshaw with `int(km * 15)` cost and `int(km * 4)`
minutes. -/
theorem get_transit_instruction_rules (m : ℚ) (b : ℤ) :
    (m ≤ 0 → get_transit_instruction m b = none) ∧
    (0 < m → m / 1000 < 2 →
      get_transit_instruction m b =
        some ⟨TransitMode.walk, m / 1000, pyTrunc (m / 1000 * 12), 0⟩) ∧
    (0 < m → 2 ≤ m / 1000 → 4000 < b →
      get_transit_instruction m b =
        some ⟨TransitMode.cab, m / 1000, pyTrunc (m / 1000 * 3),
          pyTrunc (m / 1000 * 25)⟩) ∧
    (0 < m → 2 ≤ m / 1000 → b ≤ 4000 →
      get_transit_instruction m b =
        some ⟨TransitMode.auto, m / 1000, pyTrunc (m / 1000 * 4),
          pyTrunc (m / 1000 * 15)⟩) := by
  refine ⟨fun h0 => ?_, fun h0 h1 => ?_, fun h0 h1 h2 => ?_, fun h0 h1 h2 => ?_⟩
  · unfold get_transit_instruction
    rw [if_pos h0]
  · unfold get_transit_instruction
    rw [if_neg (not_le.mpr h0)]
    show (if m / 1000 < 2 then _ else _) = _
    rw [if_pos h1]
  · unfold get_transit_instruction
    rw [if_neg (not_le.mpr h0)]
    show (if m / 1000 < 2 then _ else _) = _
    rw [if_neg (not_lt.mpr h1)]
    show (if b > 4000 then _ else _) = _
    rw [if_pos h2]
  · unfold get_transit_instruction
    rw [if_neg (not_le.mpr h0)]
    show (if m / 1000 < 2 then _ else _) = _
    rw [if_neg (not_lt.mpr h1)]
    show (if b > 4000 then _ else _) = _
    rw [if_neg (not_lt.mpr h2)]

/-- Closed witness for `get_transit_instruction_rules`: the walking rule at
1500 m. -/
theorem get_transit_instruction_rules_witness :
    (0 : ℚ) < 1500 ∧ (1500 : ℚ) / 1000 < 2 ∧
    get_transit_instruction 1500 5000 =
      some ⟨TransitMode.walk, 1500 / 1000, pyTrunc (1500 / 1000 * 12), 0⟩ :=
  ⟨by norm_num, by norm_num,
    (get_transit_instruction_rules 1500 5000).2.1 (by norm_num) (by norm_num)⟩

/-! ## Navigation link structure (C8) -/

theorem str_data_append (a b : String) : (a ++ b).data = a.data ++ b.data := rfl

theorem utf8Bytes_ne_nil (c : Char) : utf8Bytes c ≠ [] := by
  simp only [utf8Bytes]
  split
  · exact List.cons_ne_nil _ _
  · split
    · exact List.cons_ne_nil _ _
    · split
      · exact List.cons_ne_nil _ _
      · exact List.cons_ne_nil _ _

theorem concatMap_ne_nil (f : α → List β) (a : α) (as : List α)
    (hf : f a ≠ []) : concatMap f (a :: as) ≠ [] := by
  show f a ++ concatMap f as ≠ []
  intro h
  exact hf (List.append_eq_nil.mp h).1

theorem quoteChar_ne_nil (c : Char) : quoteChar c ≠ [] := by
  unfold quoteChar
  split
  · exact List.cons_ne_nil _ _
  · split
    · exact List.cons_ne_nil _ _
    · obtain ⟨b, bs, hb⟩ : ∃ b bs, utf8Bytes c = b :: bs := by
        cases hu : utf8Bytes c with
        | nil => exact absurd hu (utf8Bytes_ne_nil c)
        | cons b bs => exact ⟨b, bs, rfl⟩
      rw [hb]
      exact concatMap_ne_nil pctByte b bs (List.cons_ne_nil _ _)

theorem quote_plus_ne_empty (s : String) (h : s.data ≠ []) :
    quote_plus s ≠ "" := by
  obtain ⟨c, cs, hcs⟩ : ∃ c cs, s.data = c :: cs := by
    cases hd : s.data with
    | nil => exact absurd hd h
    | cons c cs => exact ⟨c, cs, rfl⟩
  intro hq
  have hdata : concatMap quoteChar s.data = [] := congrArg String.data hq
  rw [hcs] at hdata
  exact concatMap_ne_nil quoteChar c cs (quoteChar_ne_nil c) hdata

theorem joinFoldl_data (sep : String) :
    ∀ (as : List String) (acc : String),
      ∃ t, (as.foldl (fun acc b => acc ++ sep ++ b) acc).data = acc.data ++ t := by
  intro as
  induction as with
  | nil => intro acc; exact ⟨[], (List.append_nil _).symm⟩
  | cons b bs ih =>
    intro acc
    obtain ⟨t, ht⟩ := ih (acc ++ sep ++ b)
    refine ⟨sep.data ++ b.data ++ t, ?_⟩
    show (bs.foldl (fun acc b => acc ++ sep ++ b) (acc ++ sep ++ b)).data = _
    rw [ht, str_data_append, str_data_append]
    simp [List.append_assoc]

theorem space_concat_ne_nil (m city : String) : (m ++ " " ++ city).data ≠ [] := by
  rw [str_data_append, str_data_append]
  intro h
  have := (List.append_eq_nil.mp h).1
  have := (List.append_eq_nil.mp this).2
  cases this

theorem pyJoin_space_ne_empty (city : String) (m : String) (ms : List String) :
    quote_plus (pyJoin "|" ((m ++ " " ++ city) :: ms)) ≠ "" := by
  obtain ⟨t, ht⟩ := joinFoldl_data "|" ms (m ++ " " ++ city)
  apply quote_plus_ne_empty
  show (pyJoin "|" ((m ++ " " ++ city) :: ms)).data ≠ []
  rw [show pyJoin "|" ((m ++ " " ++ city) :: ms) =
    ms.foldl (fun acc b => acc ++ "|" ++ b) (m ++ " " ++ city) from rfl, ht]
  intro h
  exact space_concat_ne_nil m city (List.append_eq_nil.mp h).1

/-- C8: `generate_google_maps_url` returns an empty link for fewer than 2
names; for 2 names the link has the first name as (encoded) origin and the
last as destination and no waypoints parameter; for more than 2 names the
middle names, each suffixed with the city, are pipe-joined, percent-encoded
and passed as the waypoints parameter. -/
theorem maps_url_structure (places : List String) (city : String) :
    (places.length < 2 → generate_google_maps_url places city = "") ∧
    (places.length = 2 →
      generate_google_maps_url places city =
        "https://www.google.com/maps/dir/?api=1" ++ "&origin=" ++
          quote_plus (places.getD 0 "" ++ " " ++ city) ++ "&destination=" ++
          quote_plus (places.getLastD "" ++ " " ++ city)) ∧
    (2 < places.length →
      generate_google_maps_url places city =
        "https://www.google.com/maps/dir/?api=1" ++ "&origin=" ++
          quote_plus (places.getD 0 "" ++ " " ++ city) ++ "&destination=" ++
          quote_plus (places.getLastD "" ++ " " ++ city) ++ "&waypoints=" ++
          quote_plus (pyJoin "|"
            (((places.drop 1).dropLast).map (fun p => p ++ " " ++ city)))) := by
  refine ⟨fun h => ?_, fun h => ?_, fun h => ?_⟩
  · unfold generate_google_maps_url
    rw [if_pos h]
  · have h2 : ¬ places.length < 2 := by omega
    have h3 : ¬ places.length > 2 := by omega
    simp only [generate_google_maps_url, if_neg h2, if_neg h3, ne_eq,
      not_true_eq_false, if_false]
  · have h2 : ¬ places.length < 2 := by omega
    obtain ⟨m, ms, hmid⟩ : ∃ m ms, (places.drop 1).dropLast = m :: ms := by
      have hlen : ((places.drop 1).dropLast).length = places.length - 2 := by
        rw [List.length_dropLast, List.length_drop]
        omega
      cases hd : (places.drop 1).dropLast with
      | nil => rw [hd] at hlen; simp at hlen; omega
      | cons m ms => exact ⟨m, ms, rfl⟩
    have hne : quote_plus (pyJoin "|"
        (((places.drop 1).dropLast).map (fun p => p ++ " " ++ city))) ≠ "" := by
      rw [hmid]
      show quote_plus (pyJoin "|"
        ((m ++ " " ++ city) :: ms.map (fun p => p ++ " " ++ city))) ≠ ""
      exact pyJoin_space_ne_empty city m (ms.map (fun p => p ++ " " ++ city))
    simp only [generate_google_maps_url, if_neg h2, if_pos h, ne_eq]
    rw [if_pos hne]

/-- Closed witness for `maps_url_structure`: the four-name case fully
evaluated. -/
theorem maps_url_structure_witness :
    generate_google_maps_url ["A", "B", "C", "D"] "X" =
      "https://www.google.com/maps/dir/?api=1&origin=A+X&destination=D+X&waypoints=B+X%7CC+X" := by
  have h := (maps_url_structure ["A", "B", "C", "D"] "X").2.2 (by decide)
  rw [h]
  decide

/-! ## Geocoding cascade and batch behaviour (C3) -/

theorem fetch_go (city : String) (nom pho : GeoOracle) :
    ∀ (names : List String) (init : List Coord),
      names.foldl (fetchStep nom pho city) init =
        init ++ names.filterMap (fun nm =>
          match geocodeName nom pho city nm with
          | Except.ok (some loc) => some ⟨nm, loc.1, loc.2⟩
          | _ => none) := by
  intro names
  induction names with
  | nil => intro init; exact (List.append_nil init).symm
  | cons x xs ih =>
    intro init
    show xs.foldl (fetchStep nom pho city) (fetchStep nom pho city init x) = _
    cases h : geocodeName nom pho city x with
    | error e =>
      have hs : fetchStep nom pho city init x = init := by
        unfold fetchStep; rw [h]
      rw [hs, ih init, List.filterMap_cons]
      rw [h]
    | ok o =>
      cases o with
      | none =>
        have hs : fetchStep nom pho city init x = init := by
          unfold fetchStep; rw [h]
        rw [hs, ih init, List.filterMap_cons]
        rw [h]
      | some loc =>
        have hs : fetchStep nom pho city init x = init ++ [⟨x, loc.1, loc.2⟩] := by
          unfold fetchStep; rw [h]
        rw [hs, ih, List.filterMap_cons]
        rw [h, List.append_assoc]
        rfl

theorem fetch_coordinates_filterMap (city : String) (nom pho : GeoOracle)
    (names : List String) :
    fetch_coordinates names city nom pho =
      names.filterMap (fun nm =>
        match geocodeName nom pho city nm with
        | Except.ok (some loc) => some ⟨nm, loc.1, loc.2⟩
        | _ => none) :=
  fetch_go city nom pho names []

/-- C3 counterexample: a provider error at the first strategy step does not
cascade to the next strategy.  With Nominatim always raising and Photon
resolving the fuzzy query `"X C"`, the name `"X"` is still dropped, so
"only failure of all three strategies drops the name" is false. -/
theorem geocode_error_no_cascade_counterexample :
    ((fun q => if q = "X C" then Except.ok (some ((1 : ℚ), (2 : ℚ)))
        else Except.ok none : GeoOracle) ("X" ++ " " ++ "C") =
      Except.ok (some ((1 : ℚ), (2 : ℚ)))) ∧
    fetch_coordinates ["X"] "C" (fun _ => Except.error ())
      (fun q => if q = "X C" then Except.ok (some ((1 : ℚ), (2 : ℚ)))
        else Except.ok none) = [] :=
  ⟨rfl, rfl⟩

/-- C3 (amended): a no-match result (without an error) cascades through the
fixed strategy sequence; a raised error is caught, is never fatal to the
batch, but aborts the remaining strategies for that name and drops it: the
output is exactly the per-name lookups that returned a location, in input
order. -/
theorem fetch_coordinates_cascade (nom pho : GeoOracle) (city name : String) :
    (∀ loc, nom (name ++ ", " ++ city) = Except.ok (some loc) →
      geocodeName nom pho city name = Except.ok (some loc)) ∧
    (nom (name ++ ", " ++ city) = Except.ok none →
      ∀ loc, pho (name ++ " " ++ city) = Except.ok (some loc) →
        geocodeName nom pho city name = Except.ok (some loc)) ∧
    (nom (name ++ ", " ++ city) = Except.ok none →
      pho (name ++ " " ++ city) = Except.ok none →
      geocodeName nom pho city name = pho name) ∧
    (∀ e, nom (name ++ ", " ++ city) = Except.error e →
      geocodeName nom pho city name = Except.error e) ∧
    (∀ names : List String, fetch_coordinates names city nom pho =
      names.filterMap (fun nm =>
        match geocodeName nom pho city nm with
        | Except.ok (some loc) => some ⟨nm, loc.1, loc.2⟩
        | _ => none)) := by
  refine ⟨fun loc h => ?_, fun h1 loc h2 => ?_, fun h1 h2 => ?_, fun e h => ?_,
    fetch_coordinates_filterMap city nom pho⟩
  · unfold geocodeName; rw [h]
  · unfold geocodeName; rw [h1, h2]
  · unfold geocodeName; rw [h1, h2]
  · unfold geocodeName; rw [h]

/-- Closed witness for `fetch_coordinates_cascade`: the second-strategy
cascade at concrete oracles. -/
theorem fetch_coordinates_cascade_witness :
    geocodeName (fun _ => Except.ok none)
      (fun q => if q = "W K" then Except.ok (some ((3 : ℚ), (4 : ℚ)))
        else Except.ok none) "K" "W" = Except.ok (some ((3 : ℚ), (4 : ℚ))) :=
  (fetch_coordinates_cascade (fun _ => Except.ok none)
    (fun q => if q = "W K" then Except.ok (some ((3 : ℚ), (4 : ℚ)))
      else Except.ok none) "K" "W").2.1 rfl ((3 : ℚ), (4 : ℚ)) rfl

/-! ## Matrix unavailability and fallbacks (C6, C2) -/

/-- C6 counterexample: with three requested names of which only one
resolves, no matrix is available (too few coordinates), yet the computed
route is the three input names, not the identity order of the resolved
coordinates (`["A"]`). -/
theorem matrix_fallback_counterexample :
    fetch_coordinates ["A", "B", "C"] "K"
      (fun q => if q = "A, K" then Except.ok (some ((1 : ℚ), (1 : ℚ)))
        else Except.ok none)
      (fun _ => Except.ok none) = [⟨"A", 1, 1⟩] ∧
    get_osrm_matrix
      (fetch_coordinates ["A", "B", "C"] "K"
        (fun q => if q = "A, K" then Except.ok (some ((1 : ℚ), (1 : ℚ)))
          else Except.ok none)
        (fun _ => Except.ok none))
      (fun _ => Except.error ()) = [] ∧
    optimize_daily_route ["A", "B", "C"] "K"
      (fun q => if q = "A, K" then Except.ok (some ((1 : ℚ), (1 : ℚ)))
        else Except.ok none)
      (fun _ => Except.ok none) (fun _ => Except.error ()) = ["A", "B", "C"] ∧
    (["A", "B", "C"] : List String) ≠ ["A"] :=
  ⟨rfl, rfl, rfl, by decide⟩

/-- C6 (amended): `get_osrm_matrix` returns the empty "no matrix" sentinel
without raising when fewer than 2 coordinates are supplied, when the call
raises, and when the status code is not "Ok"; when at least 2 coordinates
resolved and the matrix is empty, `optimize_daily_route` returns the
resolved coordinates in identity order; when fewer than 2 resolved, it
returns the original input names in input order. -/
theorem matrix_unavailable_fallback :
    (∀ (coords : List Coord) (osrm : OsrmOracle), coords.length < 2 →
      get_osrm_matrix coords osrm = []) ∧
    (∀ (coords : List Coord) (osrm : OsrmOracle), osrm coords = Except.error () →
      get_osrm_matrix coords osrm = []) ∧
    (∀ (coords : List Coord) (osrm : OsrmOracle) (resp : OsrmResponse),
      osrm coords = Except.ok resp → resp.code ≠ "Ok" →
      get_osrm_matrix coords osrm = []) ∧
    (∀ (names : List String) (city : String) (nom pho : GeoOracle)
      (osrm : OsrmOracle),
      ¬ (fetch_coordinates names city nom pho).length < 2 →
      get_osrm_matrix (fetch_coordinates names city nom pho) osrm = [] →
      optimize_daily_route names city nom pho osrm =
        (fetch_coordinates names city nom pho).map (fun c => c.name)) ∧
    (∀ (names : List String) (city : String) (nom pho : GeoOracle)
      (osrm : OsrmOracle),
      (fetch_coordinates names city nom pho).length < 2 →
      optimize_daily_route names city nom pho osrm = names) := by
  refine ⟨fun coords osrm h => ?_, fun coords osrm h => ?_,
    fun coords osrm resp h hc => ?_, fun names city nom pho osrm h1 h2 => ?_,
    fun names city nom pho osrm h => ?_⟩
  · unfold get_osrm_matrix; rw [if_pos h]
  · by_cases hl : coords.length < 2
    · unfold get_osrm_matrix; rw [if_pos hl]
    · unfold get_osrm_matrix; rw [if_neg hl, h]
  · by_cases hl : coords.length < 2
    · unfold get_osrm_matrix; rw [if_pos hl]
    · unfold get_osrm_matrix; rw [if_neg hl, h]
      show (if resp.code = "Ok" then resp.distances else []) = []
      rw [if_neg hc]
  · simp only [optimize_daily_route]
    rw [if_neg h1, h2]
    rfl
  · simp only [optimize_daily_route]
    rw [if_pos h]

/-- Closed witness for `matrix_unavailable_fallback`: two resolved
coordinates, a raising matrix provider, identity-order fallback. -/
theorem matrix_unavailable_fallback_witness :
    optimize_daily_route ["A", "B"] "K"
      (fun q => if q = "A, K" then Except.ok (some ((1 : ℚ), (1 : ℚ)))
        else if q = "B, K" then Except.ok (some ((2 : ℚ), (2 : ℚ)))
        else Except.ok none)
      (fun _ => Except.ok none) (fun _ => Except.error ()) =
      (fetch_coordinates ["A", "B"] "K"
        (fun q => if q = "A, K" then Except.ok (some ((1 : ℚ), (1 : ℚ)))
          else if q = "B, K" then Except.ok (some ((2 : ℚ), (2 : ℚ)))
          else Except.ok none)
        (fun _ => Except.ok none)).map (fun c => c.name) :=
  matrix_unavailable_fallback.2.2.2.1 ["A", "B"] "K"
    (fun q => if q = "A, K" then Except.ok (some ((1 : ℚ), (1 : ℚ)))
      else if q = "B, K" then Except.ok (some ((2 : ℚ), (2 : ℚ)))
      else Except.ok none)
    (fun _ => Except.ok none) (fun _ => Except.error ())
    (by show ¬ ([⟨"A", 1, 1⟩, ⟨"B", 2, 2⟩] : List Coord).length < 2; decide)
    rfl

/-- C2 (code evidence): a fully successful run of `optimize_daily_route`
returns bare place-name strings carrying no per-step distance, although
`generate_itinerary` in `architect.py` reads `route_node['distance_to_next']`
(and `route_node['name']`) from each element of this very return value. -/
theorem optimize_daily_route_returns_bare_names :
    optimize_daily_route ["A", "B"] "K"
      (fun q => if q = "A, K" then Except.ok (some ((1 : ℚ), (1 : ℚ)))
        else if q = "B, K" then Except.ok (some ((2 : ℚ), (2 : ℚ)))
        else Except.ok none)
      (fun _ => Except.ok none)
      (fun _ => Except.ok ⟨"Ok", [[some 0, some 5], [some 5, some 0]]⟩) =
      ["A", "B"] :=
  rfl

/-! ## Itinerary assembly (C5, C9, C10) -/

theorem itemsFoldl_go (trip_id : String) :
    ∀ (plan : List PlanDay) (init : List ItineraryItem),
      plan.foldl (fun acc d => acc ++ d.activities.map (buildItem trip_id d.day)) init =
        init ++ concatMap (fun d => d.activities.map (buildItem trip_id d.day)) plan := by
  intro plan
  induction plan with
  | nil => intro init; exact (List.append_nil init).symm
  | cons d ds ih =>
    intro init
    show ds.foldl _ (init ++ d.activities.map (buildItem trip_id d.day)) = _
    rw [ih]
    show (init ++ _) ++ _ = init ++ (_ ++ _)
    rw [List.append_assoc]

theorem itemsToSave_eq (trip_id : String) (plan : List PlanDay) :
    itemsToSave trip_id plan =
      concatMap (fun d => d.activities.map (buildItem trip_id d.day)) plan :=
  itemsFoldl_go trip_id plan []

theorem mem_concatMap (f : α → List β) :
    ∀ (l : List α) (b : β), b ∈ concatMap f l → ∃ a, a ∈ l ∧ b ∈ f a := by
  intro l
  induction l with
  | nil => intro b h; cases h
  | cons x xs ih =>
    intro b h
    rcases List.mem_append.mp h with h2 | h2
    · exact ⟨x, List.mem_cons_self x xs, h2⟩
    · obtain ⟨a, ha, hb⟩ := ih b h2
      exact ⟨a, List.mem_cons_of_mem x ha, hb⟩

theorem mem_itemsToSave (trip_id : String) (plan : List PlanDay)
    (item : ItineraryItem) (h : item ∈ itemsToSave trip_id plan) :
    ∃ d, d ∈ plan ∧ ∃ a, a ∈ d.activities ∧ item = buildItem trip_id d.day a := by
  rw [itemsToSave_eq] at h
  obtain ⟨d, hd, hi⟩ := mem_concatMap _ plan item h
  obtain ⟨a, ha, hab⟩ := List.mem_map.mp hi
  exact ⟨d, hd, a, ha, hab.symm⟩

/-- C5 counterexample: the source regex is an anchored prefix match, so the
planner value `"9:55xyz"` is kept unchanged, and the persisted start time
does not match `HH:MM` or `HH:MM:SS` exactly; the claim's consequent is
false at this plan. -/
theorem start_time_prefix_counterexample :
    itemsToSave "t" [⟨1, [⟨some "9:55xyz", none, none, none⟩]⟩] =
      [⟨"t", 1, "9:55xyz", "00:00:00", "Activity - "⟩] ∧
    specExactTime "9:55xyz" = false ∧
    timeReMatch "9:55xyz" = true :=
  ⟨rfl, rfl, rfl⟩

/-- C5 (amended): every activity's time field is validated against the
anchored prefix pattern `^\d{1,2}:\d{2}`, the fixed default `"09:00:00"` is
substituted on mismatch or absence, and consequently every persisted
start_time begins with that pattern (trailing characters, if any, are kept);
`"14:30:00"` is kept unchanged while `"Morning"` and `"9:5"` become the
default. -/
theorem itinerary_start_time_sanitized (trip_id : String) (plan : List PlanDay) :
    (∀ item, item ∈ itemsToSave trip_id plan → timeReMatch item.start_time = true) ∧
    sanitizeTime (some "14:30:00") = "14:30:00" ∧
    sanitizeTime (some "Morning") = "09:00:00" ∧
    sanitizeTime (some "9:5") = "09:00:00" ∧
    sanitizeTime none = "09:00:00" := by
  refine ⟨?_, rfl, rfl, rfl, rfl⟩
  intro item hmem
  obtain ⟨d, hd, a, ha, rfl⟩ := mem_itemsToSave trip_id plan item hmem
  show timeReMatch (sanitizeTime a.time) = true
  unfold sanitizeTime
  show timeReMatch (if timeReMatch (a.time.getD "09:00:00") = true
    then a.time.getD "09:00:00" else "09:00:00") = true
  cases htm : timeReMatch (a.time.getD "09:00:00") with
  | false => rfl
  | true =>
    show timeReMatch (a.time.getD "09:00:00") = true
    exact htm

/-- Closed witness for `itinerary_start_time_sanitized`: the single built
item of a one-activity plan has a prefix-valid start time. -/
theorem itinerary_start_time_sanitized_witness :
    timeReMatch
      ((⟨"t", 1, "14:30:00", "00:00:00", "Activity - "⟩ : ItineraryItem).start_time) =
      true :=
  (itinerary_start_time_sanitized "t" [⟨1, [⟨some "14:30:00", none, none, none⟩]⟩]).1
    ⟨"t", 1, "14:30:00", "00:00:00", "Activity - "⟩ (by decide)

/-- C9 counterexample: an activity that does supply `end_time` has that
value persisted, not the fixed default `"00:00:00"`; the claim "regardless
of any end_time value the planner supplies" is false at this plan. -/
theorem end_time_default_counterexample :
    itemsToSave "t" [⟨1, [⟨some "10:00:00", some "18:30:00", some "Visit", some "fun"⟩]⟩] =
      [⟨"t", 1, "10:00:00", "18:30:00", "Visit - fun"⟩] ∧
    ("18:30:00" : String) ≠ "00:00:00" :=
  ⟨rfl, by decide⟩

/-- C9 (amended): the persisted `end_time` is the planner-supplied value
when one is present, and the fixed default `"00:00:00"` only when the
activity supplies none (`activity.get('end_time', "00:00:00")`). -/
theorem end_time_from_planner (trip_id : String) (plan : List PlanDay) :
    ∀ item, item ∈ itemsToSave trip_id plan →
      ∃ d, d ∈ plan ∧ ∃ a, a ∈ d.activities ∧
        item = buildItem trip_id d.day a ∧
        (a.end_time = none → item.end_time = "00:00:00") ∧
        (∀ v, a.end_time = some v → item.end_time = v) := by
  intro item hmem
  obtain ⟨d, hd, a, ha, rfl⟩ := mem_itemsToSave trip_id plan item hmem
  refine ⟨d, hd, a, ha, rfl, ?_, ?_⟩
  · intro h
    show a.end_time.getD "00:00:00" = "00:00:00"
    rw [h]
    rfl
  · intro v h
    show a.end_time.getD "00:00:00" = v
    rw [h]
    rfl

/-- Closed witness for `end_time_from_planner`: the default case of a
one-activity plan with no supplied end time. -/
theorem end_time_from_planner_witness :
    ∃ d, d ∈ ([⟨1, [⟨some "10:00:00", none, none, none⟩]⟩] : List PlanDay) ∧
      ∃ a, a ∈ d.activities ∧
        (⟨"t", 1, "10:00:00", "00:00:00", "Activity - "⟩ : ItineraryItem) =
          buildItem "t" d.day a ∧
        (a.end_time = none →
          (⟨"t", 1, "10:00:00", "00:00:00", "Activity - "⟩ : ItineraryItem).end_time =
            "00:00:00") ∧
        (∀ v, a.end_time = some v →
          (⟨"t", 1, "10:00:00", "00:00:00", "Activity - "⟩ : ItineraryItem).end_time = v) :=
  end_time_from_planner "t" [⟨1, [⟨some "10:00:00", none, none, none⟩]⟩]
    ⟨"t", 1, "10:00:00", "00:00:00", "Activity - "⟩ (by decide)

/-- C10: if the planner output fails to parse as JSON, `generate_itinerary`
returns the parse-error value and issues no persistence operation — neither
the delete of the trip's itinerary rows nor any insert; the delete and
(conditional) insert are issued only on the successful-parse branch. -/
theorem parse_failure_no_persistence (trip_id : String) (names : List String)
    (city : String) :
    (∀ e, persistItinerary trip_id (Except.error e) names city =
      ([], GenResult.error "Failed to parse AI output into JSON.")) ∧
    (∀ plan, (persistItinerary trip_id (Except.ok plan) names city).1 =
      if (itemsToSave trip_id plan).isEmpty then [DbOp.deleteItems trip_id]
      else [DbOp.deleteItems trip_id, DbOp.insertItems (itemsToSave trip_id plan)]) :=
  ⟨fun _ => rfl, fun _ => rfl⟩

end TripPlanner
